import Mathlib

/-!
Verification of the BC calculator MCP server (Worker = `BCProcess`,
Pool = `BCProcessPool`, Validator = `InputValidator`) against its design
specification.

The TypeScript source is shallowly embedded: strings are `List Char`
(JavaScript strings, ASCII range is all the repository exercises),
the worker object is a record `BCProcessState`, its event-handler and
method bodies become pure functions `state -> state x observable events`,
and the pool is a record over worker ids with an association list giving
each id's worker state.  The single-threaded cooperative scheduling model
of Node.js is mirrored by making each handler body an atomic function.
Fallible operations return `Except BCCalculatorError`; an `Except.error`
result corresponds to a thrown exception, which in the source leaves the
receiver unmutated (every `throw` in `evaluate`/`acquireProcess` happens
before any field assignment).
-/

/-- JavaScript strings, embedded as lists of characters. -/
abbrev Str := List Char

/-- JavaScript whitespace (`\s`, `String.prototype.trim`), restricted to the
code points the repository can encounter. -/
def isJsWs (c : Char) : Bool :=
  c == ' ' || c == '\t' || c == '\n' || c == '\r' || c == '\x0b' ||
  c == '\x0c' || c == ' ' || c == '﻿'

/-- Remove trailing JavaScript whitespace. -/
def trimR : Str → Str
  | [] => []
  | c :: rest =>
    match trimR rest with
    | [] => if isJsWs c then [] else [c]
    | r => c :: r

/-- JavaScript `String.prototype.trim`: strip leading and trailing whitespace. -/
def trimChars (cs : Str) : Str :=
  trimR (cs.dropWhile isJsWs)

/-- JavaScript `String.prototype.split('\n')`: split on every newline, keeping empty
segments, always returning at least one segment. -/
def splitNl : Str → List Str
  | [] => [[]]
  | c :: rest =>
    if c == '\n' then [] :: splitNl rest
    else
      match splitNl rest with
      | [] => [[c]]
      | h :: t => (c :: h) :: t

/-- Source enum `BCErrorCode` from `types.ts`. -/
inductive BCErrorCode where
  | VALIDATION_ERROR
  | BC_SPAWN_ERROR
  | BC_TIMEOUT
  | BC_RUNTIME_ERROR
  | BC_PROCESS_EXIT
  | BC_NOT_READY
  | INTERNAL_ERROR
deriving DecidableEq

/-- Source class `BCCalculatorError` from `types.ts`: a message and a machine-readable
error code.  (The `details` payload carries no behaviour and is elided.) -/
structure BCCalculatorError where
  message : Str
  code : BCErrorCode
deriving DecidableEq

/-- Decidable equality for `Except` results, used to evaluate the embedding
on concrete inputs. -/
instance {e a : Type} [DecidableEq e] [DecidableEq a] : DecidableEq (Except e a) := fun x y =>
  match x, y with
  | Except.ok u, Except.ok v =>
    if h : u = v then isTrue (by rw [h]) else isFalse (by simp [h])
  | Except.error u, Except.error v =>
    if h : u = v then isTrue (by rw [h]) else isFalse (by simp [h])
  | Except.ok _, Except.error _ => isFalse (by simp)
  | Except.error _, Except.ok _ => isFalse (by simp)

/-- Observable effects of a worker-method execution: writes to the child
process stdin, settlement of the pending promise, timer cancellation, and
process termination. -/
inductive WEvent where
  | stdinWrite (data : Str)
  | resolvedReq (reqId : Nat) (value : Str)
  | rejectedReq (reqId : Nat) (err : BCCalculatorError)
  | timerCancelled (reqId : Nat)
  | procKilled
deriving DecidableEq

/-- The `PendingRequest` record of `bc-process.ts`: the promise sinks are
named by `reqId`; `timer` holds the armed deadline duration in ms when the
timeout is set. -/
structure PendingReq where
  reqId : Nat
  timer : Option Nat
deriving DecidableEq

/-- The mutable fields of a `BCProcess` object.  `hasProcess` is
`this.process !== null`; `appliedScale` is ghost state recording which
`scale=` directive the external engine has successfully applied (the engine
itself is outside the repository; see §6 of the spec). -/
structure BCProcessState where
  hasProcess : Bool
  isReady : Bool
  currentPrecision : Int
  pending : Option PendingReq
  outputBuffer : Str
  errorBuffer : Str
  appliedScale : Option Int
deriving DecidableEq

namespace BCProcess

/-- Source `isAvailable()`: ready, no pending request, live process handle. -/
def isAvailable (s : BCProcessState) : Bool :=
  s.isReady && s.pending.isNone && s.hasProcess

/-- Source `resolvePendingRequest`: clear the deadline timer, clear `pending`,
resolve the promise with `result`. -/
def resolvePendingRequest (result : Str) (s : BCProcessState) :
    BCProcessState × List WEvent :=
  match s.pending with
  | none => (s, [])
  | some p =>
    ({ s with pending := none },
     (if p.timer.isSome then [WEvent.timerCancelled p.reqId] else []) ++
       [WEvent.resolvedReq p.reqId result])

/-- Source `rejectPendingRequest`: clear the deadline timer, clear `pending`,
reject the promise with `err`. -/
def rejectPendingRequest (err : BCCalculatorError) (s : BCProcessState) :
    BCProcessState × List WEvent :=
  match s.pending with
  | none => (s, [])
  | some p =>
    ({ s with pending := none },
     (if p.timer.isSome then [WEvent.timerCancelled p.reqId] else []) ++
       [WEvent.rejectedReq p.reqId err])

/-- The stdout `data` handler of `setupHandlers`: append the chunk to
`outputBuffer`, split on newlines, keep the trailing incomplete line, and if
a complete line with non-empty trimmed content exists while a request is
pending, resolve it with the trimmed last such line. -/
def onStdoutData (data : Str) (s : BCProcessState) :
    BCProcessState × List WEvent :=
  let buf := s.outputBuffer ++ data
  let lines := splitNl buf
  if 2 ≤ lines.length then
    let s1 := { s with outputBuffer := lines.getLastD [] }
    let results := lines.dropLast.filter (fun l => !(trimChars l).isEmpty)
    if !results.isEmpty && s1.pending.isSome then
      resolvePendingRequest (trimChars (results.getLastD [])) s1
    else (s1, [])
  else ({ s with outputBuffer := buf }, [])

/-- The stderr `data` handler of `setupHandlers`: trim the chunk, append it
(plus a newline) to `errorBuffer`, and if the trimmed text is non-empty
while a request is pending, reject that request with a runtime error. -/
def onStderrData (data : Str) (s : BCProcessState) :
    BCProcessState × List WEvent :=
  let errorText := trimChars data
  let s1 := { s with errorBuffer := s.errorBuffer ++ errorText ++ ['\n'] }
  if !errorText.isEmpty && s1.pending.isSome then
    rejectPendingRequest
      { message := ("BC error").toList, code := BCErrorCode.BC_RUNTIME_ERROR }
      s1
  else (s1, [])

/-- The process `exit` handler of `setupHandlers`. -/
def onProcExit (s : BCProcessState) : BCProcessState × List WEvent :=
  let s1 := { s with isReady := false }
  if s1.pending.isSome then
    rejectPendingRequest
      { message := ("BC process exited unexpectedly").toList,
        code := BCErrorCode.BC_PROCESS_EXIT } s1
  else (s1, [])

/-- Source `kill()`: if a process handle exists, terminate it and drop readiness;
idempotent otherwise. -/
def kill (s : BCProcessState) : BCProcessState × List WEvent :=
  if s.hasProcess then
    ({ s with hasProcess := false, isReady := false }, [WEvent.procKilled])
  else (s, [])

/-- The timeout error thrown when the deadline timer fires. -/
def timeoutErr (tmo : Nat) : BCCalculatorError :=
  { message := ("Calculation timeout after " ++ toString tmo ++ "ms").toList,
    code := BCErrorCode.BC_TIMEOUT }

/-- The deadline-timer callback armed by `evaluate`: reject the pending
request with `Timeout`, then kill the hung process. -/
def onTimeoutFire (s : BCProcessState) : BCProcessState × List WEvent :=
  let tmo := match s.pending with
    | some p => p.timer.getD 0
    | none => 0
  let r1 := rejectPendingRequest (timeoutErr tmo) s
  let r2 := kill r1.1
  (r2.1, r1.2 ++ r2.2)

/-- The error thrown by `evaluate` when the worker is not ready. -/
def notReadyErr : BCCalculatorError :=
  { message := ("BC process not ready").toList,
    code := BCErrorCode.BC_NOT_READY }

/-- The error thrown by `evaluate` when a request is already pending. -/
def busyErr : BCCalculatorError :=
  { message := ("BC process is busy with another calculation").toList,
    code := BCErrorCode.BC_NOT_READY }

/-- The error used to reject the pending request when writing the
expression to the child's stdin throws. -/
def writeFailErr : BCCalculatorError :=
  { message := ("Failed to write to BC process").toList,
    code := BCErrorCode.INTERNAL_ERROR }

/-- Source `evaluate(expression, timeout)`, up to the point the returned promise
is in flight.  `reqId` names the promise's sinks; `writeOk` is the outcome
of the `stdin.write` call.  An `Except.error` models a synchronous throw
(no state was mutated yet); an `Except.ok` carries the worker state and the
events that occurred before `evaluate` returned control. -/
def evaluate (expression : Str) (timeoutMs : Nat) (reqId : Nat)
    (writeOk : Bool) (s : BCProcessState) :
    Except BCCalculatorError (BCProcessState × List WEvent) :=
  if !(s.isReady && s.hasProcess) then Except.error notReadyErr
  else if s.pending.isSome then Except.error busyErr
  else
    let s1 := { s with pending := some { reqId := reqId, timer := some timeoutMs },
                       outputBuffer := [], errorBuffer := [] }
    if writeOk then
      Except.ok (s1, [WEvent.stdinWrite (expression ++ ['\n'])])
    else
      Except.ok (rejectPendingRequest writeFailErr s1)

/-- The worker state right after the constructor and the `spawn` call in
`start()`: live process, not yet ready, cached precision already set to the
configured value (constructor line `this.currentPrecision = options.precision`),
no precision applied to the engine yet. -/
def spawnedState (p : Int) : BCProcessState :=
  { hasProcess := true, isReady := false, currentPrecision := p,
    pending := none, outputBuffer := [], errorBuffer := [],
    appliedScale := none }

/-- The `scale=<n>` precision directive sent by `setPrecision`. -/
def scaleCmd (p : Int) : Str :=
  ("scale=" ++ toString p).toList

/-- Modelled from the spec: the external engine is outside the repository;
per §6 it applies a received `scale=<n>` directive and the pending
precision evaluation then completes, which `setPrecision` follows by
caching `currentPrecision := scale`.  The ghost field `appliedScale`
records the engine-side application. -/
def engineAckScale (p : Int) (ack : Str) (s : BCProcessState) : BCProcessState :=
  let s1 := (resolvePendingRequest ack { s with appliedScale := some p }).1
  { s1 with currentPrecision := p }

/-- The sequence of worker states observable at the suspension points of
`start()`: after spawn, after `this.isReady = true` (source comment: "Mark
as ready before setting precision"), after `setPrecision`'s `evaluate` has
written the directive, and after that evaluation completes.  A precision
outside `[0, 100]` makes `setPrecision` throw, so `start` ends after the
second state and rethrows as a spawn error. -/
def startStates (p : Int) (tmo : Nat) : List BCProcessState :=
  let s0 := spawnedState p
  let s1 := { s0 with isReady := true }
  if p < 0 ∨ 100 < p then [s0, s1]
  else
    match evaluate (scaleCmd p) tmo 0 true s1 with
    | Except.ok (s2, _) => [s0, s1, s2, engineAckScale p (("0").toList) s2]
    | Except.error _ => [s0, s1]

end BCProcess

namespace InputValidator

/-- Maximum expression length (`MAX_LENGTH = 10000`). -/
def MAX_LENGTH : Nat := 10000

/-- Membership in the character class of `ALLOWED_CHARS`
`[0-9a-zA-Z+\-*\/^().,;\s=<>!&|%{}[\]]`. -/
def allowedChar (c : Char) : Bool :=
  ('0' ≤ c && c ≤ '9') || ('a' ≤ c && c ≤ 'z') || ('A' ≤ c && c ≤ 'Z') ||
  c == '+' || c == '-' || c == '*' || c == '/' || c == '^' || c == '(' ||
  c == ')' || c == '.' || c == ',' || c == ';' || isJsWs c || c == '=' ||
  c == '<' || c == '>' || c == '!' || c == '&' || c == '|' || c == '%' ||
  c == '\x7b' || c == '\x7d' || c == '[' || c == ']'

/-- Does some suffix of the text satisfy `p`?  (Unanchored regex search.) -/
def anySuffix (p : Str → Bool) : Str → Bool
  | [] => p []
  | c :: rest => p (c :: rest) || anySuffix p rest

/-- Regex `\s*[\/\w]` at the start of the text: optional whitespace, then a word
character or slash. -/
def wsThenWordSlash (cs : Str) : Bool :=
  match cs.dropWhile isJsWs with
  | [] => false
  | c :: _ => c.isAlphanum || c == '_' || c == '/'

/-- Start-anchored form of the redirect/pipe patterns
`/>\s*[\/\w]/`, `/<\s*[\/\w]/`, `/\|\s*[\/\w]/`: the metacharacter `d`
followed by `\s*[\/\w]`. -/
def startRedirect (d : Char) (cs : Str) : Bool :=
  match cs with
  | [] => false
  | c :: rest => c == d && wsThenWordSlash rest

/-- Unanchored search for redirect/pipe pattern with metacharacter `d`. -/
def redirMatch (d : Char) (cs : Str) : Bool :=
  anySuffix (startRedirect d) cs

/-- Strip `kw` as a case-insensitive prefix, returning the remainder. -/
def stripCI : Str → Str → Option Str
  | [], cs => some cs
  | _ :: _, [] => none
  | k :: ks, c :: cs => if c.toLower == k.toLower then stripCI ks cs else none

/-- Start-anchored form of `/system\s*\(/i` and `/exec\s*\(/i`: the keyword
(case-insensitively), optional whitespace, then `(`. -/
def startKwParen (kw : Str) (cs : Str) : Bool :=
  match stripCI kw cs with
  | none => false
  | some rest =>
    match rest.dropWhile isJsWs with
    | '(' :: _ => true
    | _ => false

/-- Start-anchored form of `/;\s*(?:bash|sh|rm|cat|ls|pwd|chmod|chown)/i`. -/
def startSemiShell (cs : Str) : Bool :=
  match cs with
  | ';' :: rest =>
    let r := rest.dropWhile isJsWs
    (stripCI (("bash").toList) r).isSome || (stripCI (("sh").toList) r).isSome ||
    (stripCI (("rm").toList) r).isSome || (stripCI (("cat").toList) r).isSome ||
    (stripCI (("ls").toList) r).isSome || (stripCI (("pwd").toList) r).isSome ||
    (stripCI (("chmod").toList) r).isSome || (stripCI (("chown").toList) r).isSome
  | _ => false

/-- The backtick character (command substitution). -/
def btick : Char := Char.ofNat 96

/-- Start-anchored form of `/\$\(/`. -/
def startDollarParen (cs : Str) : Bool :=
  match cs with
  | '$' :: '(' :: _ => true
  | _ => false

/-- The `DANGEROUS_PATTERNS` deny list, as one disjunction, in source
order: `system(`, `exec(`, backtick, `$(`, output redirect, input
redirect, pipe, `;`-chained shell command. -/
def dangerousPatterns (cs : Str) : Bool :=
  anySuffix (startKwParen (("system").toList)) cs ||
  anySuffix (startKwParen (("exec").toList)) cs ||
  cs.contains btick ||
  anySuffix startDollarParen cs ||
  redirMatch '>' cs ||
  redirMatch '<' cs ||
  redirMatch '|' cs ||
  anySuffix startSemiShell cs

/-- The distinct rejection causes of `InputValidator` (the source attaches
human-readable messages, some interpolated; the cause is what matters). -/
inductive VError where
  | nullOrUndefined
  | tooLong
  | empty
  | invalidChars
  | dangerousPattern
  | parenCloseBeforeOpen
  | braceCloseBeforeOpen
  | bracketCloseBeforeOpen
  | parenUnbalanced
  | braceUnbalanced
  | bracketUnbalanced
deriving DecidableEq

/-- Source interface `ValidationResult` from `types.ts`. -/
structure ValidationResult where
  valid : Bool
  error : Option VError := none
  sanitized : Option Str := none
deriving DecidableEq

/-- The counter walk of `validateBCSyntax`: per character update the
parenthesis, brace and bracket counters, failing as soon as one goes
negative; at the end every counter must be zero. -/
def bcSyntaxLoop : Str → Int → Int → Int → Option VError
  | [], p, b, k =>
    if p ≠ 0 then some VError.parenUnbalanced
    else if b ≠ 0 then some VError.braceUnbalanced
    else if k ≠ 0 then some VError.bracketUnbalanced
    else none
  | c :: rest, p, b, k =>
    let p := if c == '(' then p + 1 else p
    let p := if c == ')' then p - 1 else p
    let b := if c == '\x7b' then b + 1 else b
    let b := if c == '\x7d' then b - 1 else b
    let k := if c == '[' then k + 1 else k
    let k := if c == ']' then k - 1 else k
    if p < 0 then some VError.parenCloseBeforeOpen
    else if b < 0 then some VError.braceCloseBeforeOpen
    else if k < 0 then some VError.bracketCloseBeforeOpen
    else bcSyntaxLoop rest p b k

/-- Source `validateBCSyntax`: balanced-grouping check. -/
def bcSyntaxCheck (cs : Str) : Option VError :=
  bcSyntaxLoop cs 0 0 0

/-- Source `InputValidator.validate`: null/empty check, length check, emptiness
after trimming, allow-list, deny-list, grouping balance; on success the
sanitized text is the trimmed input. -/
def validate (cs : Str) : ValidationResult :=
  if cs.isEmpty then
    { valid := false, error := some VError.nullOrUndefined }
  else if MAX_LENGTH < cs.length then
    { valid := false, error := some VError.tooLong }
  else
    let trimmed := trimChars cs
    if trimmed.isEmpty then
      { valid := false, error := some VError.empty }
    else if !trimmed.all allowedChar then
      { valid := false, error := some VError.invalidChars }
    else if dangerousPatterns trimmed then
      { valid := false, error := some VError.dangerousPattern }
    else
      match bcSyntaxCheck trimmed with
      | some e => { valid := false, error := some e }
      | none => { valid := true, sanitized := some trimmed }

/-- Source `InputValidator.sanitize`. -/
def sanitize (cs : Str) : Str :=
  trimChars cs

end InputValidator

/-- Source interface `ProcessPoolConfig` from `types.ts`. -/
structure ProcessPoolConfig where
  poolSize : Nat
  defaultPrecision : Int
  defaultTimeout : Nat
deriving DecidableEq

/-- The mutable fields of a `BCProcessPool` object.  Workers are named by
monotonically assigned ids (`nextId` is the next fresh one); `procs` maps
each id ever created to the current state of that `BCProcess` object, the
most recently created first. -/
structure PoolState where
  processes : List Nat
  availableProcesses : List Nat
  procs : List (Nat × BCProcessState)
  nextId : Nat
  isInitialized : Bool
  config : ProcessPoolConfig
deriving DecidableEq

namespace BCProcessPool

/-- The pool as constructed: no workers, not initialized. -/
def mkPool (config : ProcessPoolConfig) : PoolState :=
  { processes := [], availableProcesses := [], procs := [], nextId := 0,
    isInitialized := false, config := config }

/-- The state of a worker whose `start()` has completed inside
`createProcess`: live, ready, no pending request, configured default
precision applied. -/
def startedState (cfg : ProcessPoolConfig) : BCProcessState :=
  { hasProcess := true, isReady := true,
    currentPrecision := cfg.defaultPrecision, pending := none,
    outputBuffer := [], errorBuffer := [],
    appliedScale := some cfg.defaultPrecision }

/-- Dereference a worker id in the pool's object map. -/
def lookupProc (procs : List (Nat × BCProcessState)) (id : Nat) :
    Option BCProcessState :=
  (procs.find? (fun e => e.1 == id)).map (fun e => e.2)

/-- Per-worker `process.isAvailable()` called through the pool's object map. -/
def procsAvailable (procs : List (Nat × BCProcessState)) (id : Nat) : Bool :=
  match lookupProc procs id with
  | some st => BCProcess.isAvailable st
  | none => false

/-- Predicate `poolIsAvailable s id`: `isAvailable()` of the worker `id` in pool
state `s`. -/
def poolIsAvailable (s : PoolState) (id : Nat) : Bool :=
  procsAvailable s.procs id

/-- Apply `kill()` to worker `id` inside the pool's object map. -/
def procsKill (id : Nat) (procs : List (Nat × BCProcessState)) :
    List (Nat × BCProcessState) :=
  procs.map (fun e => if e.1 == id then (e.1, (BCProcess.kill e.2).1) else e)

/-- The success path of `createProcess`: construct a worker with the
pool's configuration, `start()` it, and push it onto both `processes` and
`availableProcesses`. -/
def createOk (s : PoolState) : Nat × PoolState :=
  (s.nextId,
   { s with procs := (s.nextId, startedState s.config) :: s.procs,
            processes := s.processes ++ [s.nextId],
            availableProcesses := s.availableProcesses ++ [s.nextId],
            nextId := s.nextId + 1 })

/-- Source `createProcess`: `spawnOk` is whether `process.start()` succeeds; on
failure the spawn error propagates and the pool's lists are untouched
(the pushes happen only after `await process.start()` returns). -/
def createProcess (spawnOk : Bool) (s : PoolState) :
    Except BCCalculatorError (Nat × PoolState) :=
  if spawnOk then Except.ok (createOk s)
  else Except.error
    { message := ("Failed to start").toList, code := BCErrorCode.BC_SPAWN_ERROR }

/-- Source `acquireProcess`: fail if the pool is uninitialized; if no worker is
available, the fixed-interval wait loop runs — with no concurrent release
or replacement (the cooperative model with no external events) it elapses
and acquisition fails; otherwise shift the first available worker,
re-check its `isAvailable()`, and on failure kill it and hand out a
freshly created replacement. -/
def acquireProcess (spawnOk : Bool) (s : PoolState) :
    Except BCCalculatorError (Nat × PoolState) :=
  if !s.isInitialized then
    Except.error
      { message := ("BC process pool not initialized").toList,
        code := BCErrorCode.BC_NOT_READY }
  else
    match s.availableProcesses with
    | [] =>
      Except.error
        { message := ("No BC processes available after waiting").toList,
          code := BCErrorCode.BC_NOT_READY }
    | p :: rest =>
      let s1 := { s with availableProcesses := rest }
      if procsAvailable s1.procs p then Except.ok (p, s1)
      else createProcess spawnOk { s1 with procs := procsKill p s1.procs }

/-- Source `shutdown`: kill every member worker, clear both lists, drop the
initialized flag. -/
def shutdown (s : PoolState) : PoolState :=
  { s with procs := s.processes.foldl (fun pr id => procsKill id pr) s.procs,
           processes := [], availableProcesses := [],
           isInitialized := false }

/-- One scheduling phase of the `Promise.all` fan-out of `initialize`:
run, in index order, the settlements of the `createProcess` tasks for
which `act i` holds, task `i` succeeding iff `spawnOk i`; each successful
settlement resumes `createProcess` after `await process.start()` and
pushes its worker onto `processes` and `availableProcesses`; a failing
task pushes nothing (its spawn error rejects `Promise.all`). -/
def runTasks (spawnOk act : Nat → Bool) (i n : Nat) (s : PoolState) :
    PoolState :=
  match n with
  | 0 => s
  | n + 1 =>
    if spawnOk i && act i then runTasks spawnOk act (i + 1) n (createOk s).2
    else runTasks spawnOk act (i + 1) n s

/-- Source `initialize()`: a no-op if already initialized; otherwise fan
out `poolSize` concurrent `createProcess` tasks and await `Promise.all`.
When every spawn succeeds, `Promise.all` resolves only after all tasks
have settled, so every worker is pushed before the pool is marked
initialized.  When any spawn fails, `Promise.all` rejects eagerly at the
first failing settlement; the catch block then runs `shutdown()` and
rethrows as a spawn error, but the remaining tasks are not cancelled:
`early i` says whether task `i`'s `start()` settles before the catch body
runs — an early success pushes its worker before `shutdown()` clears the
lists and kills it, while a late success pushes its live worker into the
already-cleared pool afterwards. -/
def initPool (spawnOk early : Nat → Bool) (s : PoolState) :
    PoolState × Except BCCalculatorError Unit :=
  if s.isInitialized then (s, Except.ok ())
  else if (List.range s.config.poolSize).any (fun i => !spawnOk i) then
    (runTasks spawnOk (fun i => !early i) 0 s.config.poolSize
       (shutdown (runTasks spawnOk early 0 s.config.poolSize s)),
     Except.error
       { message := ("Failed to initialize BC process pool").toList,
         code := BCErrorCode.BC_SPAWN_ERROR })
  else
    ({ runTasks spawnOk (fun _ => true) 0 s.config.poolSize s with
         isInitialized := true },
     Except.ok ())

end BCProcessPool

/-! ### Concrete states and pools used by the claim analyses -/

/-- A healthy idle worker used for the C2 analysis. -/
def c2State : BCProcessState :=
  { hasProcess := true, isReady := true, currentPrecision := 20,
    pending := none, outputBuffer := [], errorBuffer := [],
    appliedScale := some 20 }

/-- A worker with a request already pending, for the C3 analysis. -/
def c3Busy : BCProcessState :=
  { hasProcess := true, isReady := true, currentPrecision := 20,
    pending := some { reqId := 0, timer := some 30000 }, outputBuffer := [],
    errorBuffer := [], appliedScale := some 20 }

/-- A dead worker, for the C3 analysis. -/
def c3Dead : BCProcessState :=
  { hasProcess := false, isReady := false, currentPrecision := 20,
    pending := none, outputBuffer := [], errorBuffer := [],
    appliedScale := some 20 }

/-- A worker with a pending request, for the C5 analysis. -/
def c5Busy : BCProcessState :=
  { hasProcess := true, isReady := true, currentPrecision := 20,
    pending := some { reqId := 0, timer := some 30000 }, outputBuffer := [],
    errorBuffer := [], appliedScale := some 20 }

/-- A one-worker healthy pool, for the C5 analysis. -/
def c5Pool : PoolState :=
  { processes := [0], availableProcesses := [0],
    procs := [(0, { hasProcess := true, isReady := true,
                    currentPrecision := 20, pending := none,
                    outputBuffer := [], errorBuffer := [],
                    appliedScale := some 20 })],
    nextId := 1, isInitialized := true,
    config := { poolSize := 1, defaultPrecision := 20,
                defaultTimeout := 30000 } }

/-- A worker with a pending request and empty buffers, for the C6 and C7
analyses. -/
def c6Busy : BCProcessState :=
  { hasProcess := true, isReady := true, currentPrecision := 20,
    pending := some { reqId := 0, timer := some 30000 }, outputBuffer := [],
    errorBuffer := [], appliedScale := some 20 }

/-- A one-worker pool whose only available worker has died asynchronously,
for the C1 analysis. -/
def c1DeadPool : PoolState :=
  { processes := [0], availableProcesses := [0],
    procs := [(0, { hasProcess := false, isReady := false,
                    currentPrecision := 20, pending := none,
                    outputBuffer := [], errorBuffer := [],
                    appliedScale := none })],
    nextId := 1, isInitialized := true,
    config := { poolSize := 1, defaultPrecision := 20,
                defaultTimeout := 30000 } }

/-- The pool state after `acquireProcess` recovers from the dead worker of
`c1DeadPool` by spawning the replacement worker 1. -/
def c1AfterPool : PoolState :=
  { processes := [0, 1], availableProcesses := [1],
    procs := [(1, BCProcessPool.startedState c1DeadPool.config),
              (0, { hasProcess := false, isReady := false,
                    currentPrecision := 20, pending := none,
                    outputBuffer := [], errorBuffer := [],
                    appliedScale := none })],
    nextId := 2, isInitialized := true, config := c1DeadPool.config }

/-! ### Auxiliary lemmas about the string helpers -/

theorem splitNl_ne_nil (cs : Str) : splitNl cs ≠ [] := by
  induction cs with
  | nil => simp [splitNl]
  | cons c rest ih =>
    simp only [splitNl]
    split
    · simp
    · cases h : splitNl rest with
      | nil => simp
      | cons h t => simp

theorem splitNl_length_one (cs : Str) (h : (splitNl cs).length = 1) :
    splitNl cs = [cs] := by
  induction cs with
  | nil => simp [splitNl]
  | cons c rest ih =>
    simp only [splitNl] at h ⊢
    split at h
    · exfalso
      have := splitNl_ne_nil rest
      simp at h
      exact this h
    · rename_i hc
      cases hs : splitNl rest with
      | nil => exact absurd hs (splitNl_ne_nil rest)
      | cons hd tl =>
        rw [hs] at h
        simp at h
        have : (splitNl rest).length = 1 := by rw [hs]; simp [h]
        have := ih this
        rw [hs] at this
        simp at this
        simp [hs, hc, this.1, h]

theorem mem_dropWhile_of_not_ws {c : Char} (hc : isJsWs c = false) :
    ∀ cs : Str, c ∈ cs → c ∈ cs.dropWhile isJsWs := by
  intro cs
  induction cs with
  | nil => simp
  | cons x rest ih =>
    intro hmem
    by_cases hx : isJsWs x
    · rw [List.dropWhile_cons_of_pos (by simp [hx])]
      rcases List.mem_cons.mp hmem with h | h
      · subst h; rw [hx] at hc; exact absurd hc (by simp)
      · exact ih h
    · rw [List.dropWhile_cons_of_neg (by simp [hx])]
      exact hmem

theorem mem_trimR_of_not_ws {c : Char} (hc : isJsWs c = false) :
    ∀ cs : Str, c ∈ cs → c ∈ trimR cs := by
  intro cs
  induction cs with
  | nil => simp
  | cons x rest ih =>
    intro hmem
    rcases List.mem_cons.mp hmem with h | h
    · subst h
      simp only [trimR]
      cases ht : trimR rest with
      | nil => simp [hc]
      | cons a b => simp
    · have hr := ih h
      simp only [trimR]
      cases ht : trimR rest with
      | nil => rw [ht] at hr; exact absurd hr (by simp)
      | cons a b => rw [ht] at hr; simp [hr]

theorem mem_trimChars_of_not_ws {c : Char} (hc : isJsWs c = false)
    (cs : Str) (h : c ∈ cs) : c ∈ trimChars cs :=
  mem_trimR_of_not_ws hc _ (mem_dropWhile_of_not_ws hc cs h)

open InputValidator in
theorem beq_false_of_ws_of_not_ws {c d : Char} (hc : isJsWs c = true)
    (hd : isJsWs d = false) : (c == d) = false := by
  cases hb : c == d with
  | true => rw [eq_of_beq hb] at hc; rw [hc] at hd; exact hd
  | false => rfl

open InputValidator in
theorem anySuffix_dropWhile (p : Str → Bool) (_hnil : p [] = false)
    (hws : ∀ c rest, isJsWs c = true → p (c :: rest) = false) :
    ∀ cs : Str, anySuffix p cs = true →
      anySuffix p (cs.dropWhile isJsWs) = true := by
  intro cs
  induction cs with
  | nil => intro h; simpa using h
  | cons x rest ih =>
    intro h
    by_cases hx : isJsWs x
    · rw [List.dropWhile_cons_of_pos (by simp [hx])]
      simp only [anySuffix, Bool.or_eq_true] at h
      rcases h with h | h
      · rw [hws x rest hx] at h; exact absurd h (by simp)
      · exact ih h
    · rw [List.dropWhile_cons_of_neg (by simp [hx])]
      exact h

open InputValidator in
theorem wsThenWordSlash_trimR :
    ∀ u : Str, wsThenWordSlash u = true →
      trimR u ≠ [] ∧ wsThenWordSlash (trimR u) = true := by
  intro u
  induction u with
  | nil => intro h; simp [wsThenWordSlash] at h
  | cons x xs ih =>
    intro h
    by_cases hx : isJsWs x
    · have htail : wsThenWordSlash xs = true := by
        rw [wsThenWordSlash, List.dropWhile_cons_of_pos (by simp [hx])] at h
        exact h
      obtain ⟨hne, hw⟩ := ih htail
      cases ht : trimR xs with
      | nil => exact absurd ht hne
      | cons a b =>
        constructor
        · simp [trimR, ht]
        · rw [ht] at hw
          rw [trimR, ht]
          rw [wsThenWordSlash, List.dropWhile_cons_of_pos (by simp [hx])]
          rw [wsThenWordSlash] at hw
          exact hw
    · have hhead := h
      rw [wsThenWordSlash, List.dropWhile_cons_of_neg (by simp [hx])] at hhead
      cases ht : trimR xs with
      | nil =>
        refine ⟨by simp [trimR, ht, hx], ?_⟩
        rw [trimR, ht]
        simp only [hx, Bool.false_eq_true, if_false]
        rw [wsThenWordSlash, List.dropWhile_cons_of_neg (by simp [hx])]
        exact hhead
      | cons a b =>
        refine ⟨by simp [trimR, ht], ?_⟩
        rw [trimR, ht]
        rw [wsThenWordSlash, List.dropWhile_cons_of_neg (by simp [hx])]
        exact hhead

open InputValidator in
theorem anySuffix_redir_trimR (d : Char) :
    ∀ cs : Str, anySuffix (startRedirect d) cs = true →
      anySuffix (startRedirect d) (trimR cs) = true := by
  intro cs
  induction cs with
  | nil => intro h; simp [anySuffix, startRedirect] at h
  | cons c rest ih =>
    intro h
    simp only [anySuffix, Bool.or_eq_true] at h
    rcases h with h | h
    · rw [startRedirect] at h
      simp only [Bool.and_eq_true] at h
      obtain ⟨hcd, hw⟩ := h
      obtain ⟨hne, hw'⟩ := wsThenWordSlash_trimR rest hw
      cases ht : trimR rest with
      | nil => exact absurd ht hne
      | cons a b =>
        rw [ht] at hw'
        simp only [trimR, ht, anySuffix, Bool.or_eq_true]
        left
        rw [startRedirect]
        simp [hcd, hw']
    · have hrec := ih h
      cases ht : trimR rest with
      | nil =>
        rw [ht] at hrec
        simp [anySuffix, startRedirect] at hrec
      | cons a b =>
        rw [ht] at hrec
        simp only [trimR, ht, anySuffix, Bool.or_eq_true]
        right
        simp only [anySuffix, Bool.or_eq_true] at hrec
        exact hrec

open InputValidator in
theorem redirMatch_trimChars (d : Char) (hd : isJsWs d = false) (cs : Str)
    (h : redirMatch d cs = true) :
    redirMatch d (trimChars cs) = true := by
  rw [redirMatch] at h ⊢
  rw [trimChars]
  apply anySuffix_redir_trimR
  apply anySuffix_dropWhile _ rfl _ _ h
  intro c rest hc
  rw [startRedirect]
  simp [beq_false_of_ws_of_not_ws hc hd]

open InputValidator in
theorem validate_valid_spec (cs : Str) (h : (validate cs).valid = true) :
    cs.length ≤ MAX_LENGTH ∧ trimChars cs ≠ [] ∧
    (trimChars cs).all allowedChar = true ∧
    dangerousPatterns (trimChars cs) = false ∧
    (validate cs).sanitized = some (trimChars cs) := by
  rw [validate] at h
  split at h
  · simp at h
  · split at h
    · simp at h
    · rename_i h1 h2
      simp only at h
      split at h
      · simp at h
      · split at h
        · simp at h
        · split at h
          · simp at h
          · rename_i h3 h4 h5
            refine ⟨by omega, by simpa using h3, by simpa using h4,
              by simpa using h5, ?_⟩
            rw [validate]
            simp only [if_neg h1, if_neg h2, if_neg h3, if_neg h4, if_neg h5]
            split at h
            · simp at h
            · rfl

/-! ### Claim theorems: the Validator (C9, C10) -/

/-- C9: the Validator rejects `system(ls)`, rejects any input containing a
backtick, rejects any input containing a pipe/redirect sequence (`|`, `>`
or `<` followed by optional whitespace and a path or word character),
rejects any input longer than the configured maximum of 10000 characters,
rejects the unbalanced `(1+2`, and accepts `a=5;b=10;a+b` as valid. -/
theorem c9_validator_reject_accept :
    (InputValidator.validate (("system(ls)").toList)).valid = false ∧
    (∀ cs : Str, InputValidator.btick ∈ cs →
      (InputValidator.validate cs).valid = false) ∧
    (∀ (d : Char) (cs : Str), (d = '|' ∨ d = '>' ∨ d = '<') →
      InputValidator.redirMatch d cs = true →
      (InputValidator.validate cs).valid = false) ∧
    (∀ cs : Str, InputValidator.MAX_LENGTH < cs.length →
      (InputValidator.validate cs).valid = false) ∧
    (InputValidator.validate (("(1+2").toList)).valid = false ∧
    (InputValidator.validate (("a=5;b=10;a+b").toList)).valid = true := by
  refine ⟨by decide, ?_, ?_, ?_, by decide, by decide⟩
  · intro cs hmem
    by_contra hva
    rw [Bool.not_eq_false] at hva
    obtain ⟨-, -, hall, -, -⟩ := validate_valid_spec cs hva
    have hbt : InputValidator.btick ∈ trimChars cs :=
      mem_trimChars_of_not_ws (by decide) cs hmem
    have := List.all_eq_true.mp hall _ hbt
    exact absurd this (by decide)
  · intro d cs hd hmatch
    by_contra hva
    rw [Bool.not_eq_false] at hva
    obtain ⟨-, -, -, hdang, -⟩ := validate_valid_spec cs hva
    have hdws : isJsWs d = false := by
      rcases hd with h | h | h <;> subst h <;> decide
    have htr := redirMatch_trimChars d hdws cs hmatch
    rw [InputValidator.dangerousPatterns] at hdang
    simp only [Bool.or_eq_false_iff] at hdang
    rcases hd with h | h | h <;> subst h
    · rw [hdang.1.2] at htr; exact absurd htr (by simp)
    · rw [hdang.1.1.1.2] at htr; exact absurd htr (by simp)
    · rw [hdang.1.1.2] at htr; exact absurd htr (by simp)
  · intro cs hlen
    by_contra hva
    rw [Bool.not_eq_false] at hva
    obtain ⟨hle, -, -, -, -⟩ := validate_valid_spec cs hva
    omega

/-- Witness for C9 at concrete inputs: a backticked text, a pipe sequence,
and an over-long input are all rejected. -/
theorem c9_witness :
    (InputValidator.validate (("a`b").toList)).valid = false ∧
    (InputValidator.validate (("2|ls").toList)).valid = false ∧
    (InputValidator.validate (List.replicate 10001 'a')).valid = false :=
  ⟨c9_validator_reject_accept.2.1 _ (by decide),
   c9_validator_reject_accept.2.2.1 '|' _ (Or.inl rfl) (by decide),
   c9_validator_reject_accept.2.2.2.1 _
     (by rw [List.length_replicate]; norm_num [InputValidator.MAX_LENGTH])⟩

/-- C10: validation succeeds only when the trimmed input is non-empty
(empty or whitespace-only input is rejected), and on success the sanitized
text is exactly the trimmed input — no interior character is altered. -/
theorem c10_sanitize_is_trim (cs : Str) :
    ((InputValidator.validate cs).valid = true →
      trimChars cs ≠ [] ∧
      (InputValidator.validate cs).sanitized = some (trimChars cs)) ∧
    (trimChars cs = [] → (InputValidator.validate cs).valid = false) := by
  constructor
  · intro hva
    obtain ⟨-, hne, -, -, hsan⟩ := validate_valid_spec cs hva
    exact ⟨hne, hsan⟩
  · intro hempty
    by_contra hva
    rw [Bool.not_eq_false] at hva
    obtain ⟨-, hne, -, -, -⟩ := validate_valid_spec cs hva
    exact hne hempty

/-- Witness for C10: on `" 3+4 "` validation succeeds and sanitization is
exactly the trim; the whitespace-only `"  "` is rejected. -/
theorem c10_witness :
    (InputValidator.validate ((" 3+4 ").toList)).sanitized =
      some (trimChars ((" 3+4 ").toList)) ∧
    (InputValidator.validate (("  ").toList)).valid = false :=
  ⟨((c10_sanitize_is_trim ((" 3+4 ").toList)).1 (by decide)).2,
   (c10_sanitize_is_trim (("  ").toList)).2 (by decide)⟩

/-! ### Claim theorems: the Worker (C2 - C7) -/

/-- C2 counterexample: when the stdin write fails, `evaluate` rejects the
request with `INTERNAL_ERROR`, but the worker does *not* transition to
Dead — the resulting state is the original healthy state, and
`isAvailable()` is still true, so further evaluations are accepted. -/
theorem c2_counterexample :
    BCProcess.evaluate (("1+1").toList) 30000 0 false c2State =
      Except.ok (c2State,
        [WEvent.timerCancelled 0,
         WEvent.rejectedReq 0 BCProcess.writeFailErr]) ∧
    BCProcess.writeFailErr.code = BCErrorCode.INTERNAL_ERROR ∧
    BCProcess.isAvailable c2State = true := by decide

/-- C2 (amended): if writing the expression to the engine's stdin fails,
the pending request is rejected with `InternalError`; however the worker
does not move to Dead: `pending` is cleared, `isReady` and the process
handle are untouched, and `isAvailable()` is true afterwards, so the
worker accepts further evaluations. -/
theorem c2_write_failure_keeps_ready (expr : Str) (tmo reqId : Nat)
    (s : BCProcessState) (hr : s.isReady = true) (hh : s.hasProcess = true)
    (hn : s.pending = none) :
    BCProcess.evaluate expr tmo reqId false s =
      Except.ok ({ s with outputBuffer := [], errorBuffer := [] },
        [WEvent.timerCancelled reqId,
         WEvent.rejectedReq reqId BCProcess.writeFailErr]) ∧
    BCProcess.isAvailable { s with outputBuffer := [], errorBuffer := [] } =
      true := by
  obtain ⟨a1, a2, a3, a4, a5, a6, a7⟩ := s
  simp only at hr hh hn
  subst hr hh hn
  simp [BCProcess.evaluate, BCProcess.rejectPendingRequest,
    BCProcess.isAvailable]

/-- Witness for C2 (amended) at the concrete healthy worker. -/
theorem c2_witness :
    BCProcess.evaluate (("2+2").toList) 5000 3 false c2State =
      Except.ok ({ c2State with outputBuffer := [], errorBuffer := [] },
        [WEvent.timerCancelled 3,
         WEvent.rejectedReq 3 BCProcess.writeFailErr]) :=
  (c2_write_failure_keeps_ready (("2+2").toList) 5000 3 c2State rfl rfl rfl).1

/-- C3 counterexample: the error thrown for a busy worker carries the very
same machine-readable code (`BC_NOT_READY`) as the error thrown for a
worker that is not ready — the two are distinguished only by their
human-readable messages, not as distinct error kinds. -/
theorem c3_counterexample :
    BCProcess.evaluate (("2+2").toList) 30000 1 true c3Busy =
      Except.error BCProcess.busyErr ∧
    BCProcess.evaluate (("2+2").toList) 30000 1 true c3Dead =
      Except.error BCProcess.notReadyErr ∧
    BCProcess.busyErr.code = BCProcess.notReadyErr.code := by decide

/-- C3 (amended): calling `evaluate` on a worker with a pending request
fails immediately by throwing the busy error — thrown before any state is
mutated, so the pending request and the worker state are untouched — but
that error carries the same `BC_NOT_READY` code as the not-ready error and
is distinct from it only in its message. -/
theorem c3_busy_rejection (expr : Str) (tmo reqId : Nat)
    (s : BCProcessState) (r : PendingReq) (hr : s.isReady = true)
    (hh : s.hasProcess = true) (hpend : s.pending = some r) :
    BCProcess.evaluate expr tmo reqId true s =
      Except.error BCProcess.busyErr ∧
    BCProcess.busyErr.code = BCErrorCode.BC_NOT_READY ∧
    BCProcess.busyErr.message ≠ BCProcess.notReadyErr.message := by
  refine ⟨?_, rfl, by decide⟩
  rw [BCProcess.evaluate]
  simp [hr, hh, hpend]

/-- Witness for C3 (amended) at the concrete busy worker. -/
theorem c3_witness :
    BCProcess.evaluate (("2+2").toList) 30000 7 true c3Busy =
      Except.error BCProcess.busyErr :=
  (c3_busy_rejection (("2+2").toList) 30000 7 c3Busy
    { reqId := 0, timer := some 30000 } rfl rfl rfl).1

/-- C4 counterexample: in the `start()` trace, the state right after
`this.isReady = true` (index 1) is observable as Ready while the default
precision has not yet been applied to the engine — the source marks the
worker ready *before* `setPrecision`, because `setPrecision` itself
requires a ready worker. -/
theorem c4_counterexample :
    (BCProcess.startStates 20 30000).get? 1 =
      some { BCProcess.spawnedState 20 with isReady := true } ∧
    ({ BCProcess.spawnedState 20 with isReady := true } :
      BCProcessState).isReady = true ∧
    ({ BCProcess.spawnedState 20 with isReady := true } :
      BCProcessState).appliedScale = none := by decide

/-- C4 (amended): for a valid configured precision, `start()` marks the
worker Ready *before* the default precision is applied (so there is an
observable point that is Ready with no precision applied), and the
precision is applied before `start()` returns: the final state of the
trace is Ready with the configured precision applied and cached. -/
theorem c4_ready_before_precision (p : Int) (tmo : Nat) (h0 : 0 ≤ p)
    (h1 : p ≤ 100) :
    ((BCProcess.startStates p tmo).getLastD
        (BCProcess.spawnedState p)).isReady = true ∧
    ((BCProcess.startStates p tmo).getLastD
        (BCProcess.spawnedState p)).appliedScale = some p ∧
    ((BCProcess.startStates p tmo).getLastD
        (BCProcess.spawnedState p)).currentPrecision = p ∧
    (BCProcess.startStates p tmo).get? 1 =
      some { BCProcess.spawnedState p with isReady := true } ∧
    ({ BCProcess.spawnedState p with isReady := true } :
      BCProcessState).appliedScale = none := by
  have hno : ¬(p < 0 ∨ 100 < p) := by omega
  rw [BCProcess.startStates]
  rw [if_neg hno]
  simp [BCProcess.evaluate, BCProcess.spawnedState, BCProcess.engineAckScale,
    BCProcess.resolvePendingRequest]

/-- Witness for C4 (amended) at the configured default precision 20. -/
theorem c4_witness :
    ((BCProcess.startStates 20 30000).getLastD
        (BCProcess.spawnedState 20)).appliedScale = some 20 :=
  (c4_ready_before_precision 20 30000 (by norm_num) (by norm_num)).2.1

/-- C5: when the deadline timer fires with a request pending, that request
is rejected with `Timeout`, the process is forcibly killed, and the worker
ends Dead (`isAvailable()` false); and `acquireProcess` never returns a
worker that was unavailable when acquisition started (the only worker it
hands out other than a re-checked available one is the freshly created
replacement, whose id is the pool's fresh `nextId`). -/
theorem c5_timeout_then_dead :
    (∀ (s : BCProcessState) (rid tmo : Nat),
      s.pending = some { reqId := rid, timer := some tmo } →
      s.hasProcess = true →
      BCProcess.onTimeoutFire s =
        ({ s with pending := none, hasProcess := false, isReady := false },
         [WEvent.timerCancelled rid,
          WEvent.rejectedReq rid (BCProcess.timeoutErr tmo),
          WEvent.procKilled]) ∧
      BCProcess.isAvailable (BCProcess.onTimeoutFire s).1 = false) ∧
    (∀ (spawnOk : Bool) (pool : PoolState) (d w : Nat) (s' : PoolState),
      BCProcessPool.acquireProcess spawnOk pool = Except.ok (w, s') →
      BCProcessPool.poolIsAvailable pool d = false →
      d ≠ pool.nextId → w ≠ d) := by
  constructor
  · intro s rid tmo hp hh
    obtain ⟨a1, a2, a3, a4, a5, a6, a7⟩ := s
    simp only at hp hh
    subst hp hh
    simp [BCProcess.onTimeoutFire, BCProcess.rejectPendingRequest,
      BCProcess.kill, BCProcess.isAvailable]
  · intro spawnOk pool d w s' hacq hdead hdne
    intro hwd
    subst hwd
    rw [BCProcessPool.acquireProcess] at hacq
    split at hacq
    · exact absurd hacq (by simp)
    · split at hacq
      · exact absurd hacq (by simp)
      · dsimp only at hacq
        split at hacq
        · rename_i hpavail
          simp only [Except.ok.injEq, Prod.mk.injEq] at hacq
          rw [BCProcessPool.poolIsAvailable, ← hacq.1] at hdead
          rw [hpavail] at hdead
          exact absurd hdead (by simp)
        · rw [BCProcessPool.createProcess] at hacq
          split at hacq
          · simp only [BCProcessPool.createOk, Except.ok.injEq,
              Prod.mk.injEq] at hacq
            exact hdne hacq.1.symm
          · exact absurd hacq (by simp)

/-- Witness for C5: the concrete busy worker is dead after its timer
fires, and the pool theorem applies at the concrete healthy pool with an
absent worker id. -/
theorem c5_witness :
    BCProcess.isAvailable (BCProcess.onTimeoutFire c5Busy).1 = false ∧
    (0 : Nat) ≠ 5 :=
  ⟨(c5_timeout_then_dead.1 c5Busy 0 30000 rfl rfl).2,
   c5_timeout_then_dead.2 true c5Pool 5 0
     { c5Pool with availableProcesses := [] } (by decide) (by decide)
     (by decide)⟩

/-- C6 counterexample: a non-empty, whitespace-only chunk arriving on the
error stream while a request is pending does *not* reject that request —
the handler trims the chunk first and the empty trimmed text fails the
rejection guard, so no event is emitted and the request stays pending. -/
theorem c6_counterexample :
    BCProcess.onStderrData ([' ']) c6Busy =
      ({ c6Busy with errorBuffer := ['\n'] }, []) ∧
    ({ c6Busy with errorBuffer := ['\n'] } : BCProcessState).pending =
      some { reqId := 0, timer := some 30000 } ∧
    ([' '] : Str) ≠ [] := by decide

/-- C6 (amended): whenever a chunk whose *trimmed* content is non-empty
arrives on the error stream while a request is pending, that request is
rejected with `RuntimeError`, the deadline timer is cancelled, the pending
record is cleared, and the worker remains Ready — `isAvailable()` is true
again afterwards. -/
theorem c6_stderr_runtime_error (data : Str) (s : BCProcessState)
    (rid tmo : Nat)
    (hp : s.pending = some { reqId := rid, timer := some tmo })
    (hr : s.isReady = true) (hh : s.hasProcess = true)
    (hne : trimChars data ≠ []) :
    BCProcess.onStderrData data s =
      ({ s with errorBuffer := s.errorBuffer ++ trimChars data ++ ['\n'],
                pending := none },
       [WEvent.timerCancelled rid,
        WEvent.rejectedReq rid
          { message := ("BC error").toList,
            code := BCErrorCode.BC_RUNTIME_ERROR }]) ∧
    (BCProcess.onStderrData data s).1.isReady = true ∧
    BCProcess.isAvailable (BCProcess.onStderrData data s).1 = true := by
  obtain ⟨a1, a2, a3, a4, a5, a6, a7⟩ := s
  simp only at hp hr hh
  subst hp hr hh
  simp [BCProcess.onStderrData, BCProcess.rejectPendingRequest,
    BCProcess.isAvailable, hne]

/-- Witness for C6 (amended): a concrete runtime error line rejects the
pending request and the worker is available again. -/
theorem c6_witness :
    BCProcess.isAvailable
      (BCProcess.onStderrData (("Runtime error: divide by zero\n").toList)
        c6Busy).1 = true :=
  (c6_stderr_runtime_error (("Runtime error: divide by zero\n").toList)
    c6Busy 0 30000 rfl rfl rfl (by decide)).2.2

/-- C7: for every chunk read from the engine's stdout, the buffer is split
on newline boundaries with the trailing incomplete segment retained as the
new buffer; and if at least one complete line with non-empty trimmed
content is present while a request is pending, the pending request is
resolved with the trimmed last such line, the deadline timer is cancelled,
pending is cleared, and the worker is Ready (available) again. -/
theorem c7_stdout_framing :
    (∀ (data : Str) (s : BCProcessState),
      (BCProcess.onStdoutData data s).1.outputBuffer =
        (splitNl (s.outputBuffer ++ data)).getLastD []) ∧
    (∀ (data : Str) (s : BCProcessState) (rid tmo : Nat),
      s.pending = some { reqId := rid, timer := some tmo } →
      s.isReady = true → s.hasProcess = true →
      (splitNl (s.outputBuffer ++ data)).dropLast.filter
          (fun l => !(trimChars l).isEmpty) ≠ [] →
      (BCProcess.onStdoutData data s).2 =
        [WEvent.timerCancelled rid,
         WEvent.resolvedReq rid
           (trimChars
             (((splitNl (s.outputBuffer ++ data)).dropLast.filter
                 (fun l => !(trimChars l).isEmpty)).getLastD []))] ∧
      (BCProcess.onStdoutData data s).1.pending = none ∧
      BCProcess.isAvailable (BCProcess.onStdoutData data s).1 = true) := by
  constructor
  · intro data s
    rw [BCProcess.onStdoutData]
    dsimp only
    split
    · rename_i hlen
      split
      · rw [BCProcess.resolvePendingRequest]
        split
        · rfl
        · rfl
      · rfl
    · rename_i hlen
      have h1 : (splitNl (s.outputBuffer ++ data)).length = 1 := by
        have hne := splitNl_ne_nil (s.outputBuffer ++ data)
        have : (splitNl (s.outputBuffer ++ data)).length ≠ 0 := by
          simpa using hne
        omega
      rw [splitNl_length_one _ h1]
      rfl
  · intro data s rid tmo hp hr hh hres
    have hlen : 2 ≤ (splitNl (s.outputBuffer ++ data)).length := by
      by_contra hcon
      have h1 : (splitNl (s.outputBuffer ++ data)).length = 1 := by
        have hne := splitNl_ne_nil (s.outputBuffer ++ data)
        have : (splitNl (s.outputBuffer ++ data)).length ≠ 0 := by
          simpa using hne
        omega
      rw [splitNl_length_one _ h1] at hres
      simp at hres
    rw [BCProcess.onStdoutData]
    dsimp only
    rw [if_pos hlen]
    rw [if_pos (by simp [hres, hp])]
    rw [BCProcess.resolvePendingRequest]
    obtain ⟨a1, a2, a3, a4, a5, a6, a7⟩ := s
    simp only at hp hr hh
    subst hp hr hh
    simp [BCProcess.isAvailable]

/-- Witness for C7 at a concrete chunk carrying a complete result line. -/
theorem c7_witness :
    (BCProcess.onStdoutData (("4\n").toList) c6Busy).2 =
      [WEvent.timerCancelled 0,
       WEvent.resolvedReq 0
         (trimChars
           (((splitNl (c6Busy.outputBuffer ++ (("4\n").toList))).dropLast.filter
               (fun l => !(trimChars l).isEmpty)).getLastD []))] :=
  (c7_stdout_framing.2 (("4\n").toList) c6Busy 0 30000 rfl rfl rfl
    (by decide)).1

/-! ### Claim theorems: the Pool (C1, C8) -/

/-- C1 counterexample: on the recovery path, the worker returned by
`acquireProcess` (the fresh replacement, id 1) is still listed in the
pool's `availableProcesses` at the moment of return — `createProcess`
pushed it there and `acquireProcess` does not remove it — so it has *not*
been checked out, and a concurrent acquirer could be handed the same
worker. -/
theorem c1_counterexample :
    BCProcessPool.acquireProcess true c1DeadPool =
      Except.ok (1, c1AfterPool) ∧
    (1 : Nat) ∈ c1AfterPool.availableProcesses ∧
    BCProcessPool.poolIsAvailable c1DeadPool 0 = false := by decide

/-- C1 (amended): `acquireProcess`, when it succeeds, returns a worker
whose `isAvailable()` is true at the moment of return.  A worker taken
from `available` that passes the re-check is removed from `available`
(checked out); but when the head candidate fails the re-check, the
replacement worker is returned while still listed in `available`, so the
checked-out guarantee holds only on the non-recovery path. -/
theorem c1_acquire_contract (spawnOk : Bool) (s : PoolState) (p : Nat)
    (rest : List Nat) (w : Nat) (s' : PoolState)
    (hinit : s.isInitialized = true)
    (havail : s.availableProcesses = p :: rest)
    (hnodup : p ∉ rest)
    (hacq : BCProcessPool.acquireProcess spawnOk s = Except.ok (w, s')) :
    BCProcessPool.poolIsAvailable s' w = true ∧
    (BCProcessPool.procsAvailable s.procs p = true →
      w = p ∧ w ∉ s'.availableProcesses) ∧
    (BCProcessPool.procsAvailable s.procs p = false →
      w = s.nextId ∧ w ∈ s'.availableProcesses) := by
  rw [BCProcessPool.acquireProcess] at hacq
  rw [havail] at hacq
  simp only [hinit, Bool.not_true, Bool.false_eq_true, if_false] at hacq
  by_cases hav : BCProcessPool.procsAvailable s.procs p = true
  · rw [if_pos hav] at hacq
    simp only [Except.ok.injEq, Prod.mk.injEq] at hacq
    obtain ⟨hw, hs'⟩ := hacq
    subst hw
    subst hs'
    refine ⟨?_, fun _ => ⟨rfl, hnodup⟩, fun hfalse => ?_⟩
    · rw [BCProcessPool.poolIsAvailable]
      exact hav
    · rw [hav] at hfalse
      exact absurd hfalse (by simp)
  · rw [if_neg hav] at hacq
    rw [Bool.not_eq_true] at hav
    rw [BCProcessPool.createProcess] at hacq
    cases spawnOk with
    | false => exact absurd hacq (by simp)
    | true =>
      rw [if_pos rfl] at hacq
      simp only [BCProcessPool.createOk, Except.ok.injEq,
        Prod.mk.injEq] at hacq
      obtain ⟨hw, hs'⟩ := hacq
      subst hw
      subst hs'
      refine ⟨?_, fun htrue => ?_, fun _ => ⟨rfl, by simp⟩⟩
      · simp [BCProcessPool.poolIsAvailable, BCProcessPool.procsAvailable,
          BCProcessPool.lookupProc, BCProcessPool.startedState,
          BCProcess.isAvailable]
      · rw [hav] at htrue
        exact absurd htrue (by simp)

/-- Witness for C1 (amended) at a concrete healthy pool: the one available
worker passes the re-check, is returned, and is no longer available. -/
theorem c1_witness :
    BCProcessPool.poolIsAvailable { c5Pool with availableProcesses := [] }
      0 = true :=
  (c1_acquire_contract true c5Pool 0 [] 0
    { c5Pool with availableProcesses := [] } rfl rfl (by simp)
    (by decide)).1

theorem kill_hasProcess (st : BCProcessState) :
    (BCProcess.kill st).1.hasProcess = false := by
  rw [BCProcess.kill]
  split
  · rfl
  · rename_i h
    simpa using h

theorem mem_procsKill (id : Nat) (pr : List (Nat × BCProcessState))
    (e : Nat × BCProcessState) (h : e ∈ BCProcessPool.procsKill id pr) :
    e.2.hasProcess = false ∨ (e ∈ pr ∧ e.1 ≠ id) := by
  rw [BCProcessPool.procsKill] at h
  obtain ⟨a, ha, hae⟩ := List.mem_map.mp h
  by_cases hid : a.1 == id
  · rw [if_pos hid] at hae
    left
    rw [← hae]
    exact kill_hasProcess a.2
  · rw [if_neg hid] at hae
    right
    refine ⟨hae ▸ ha, ?_⟩
    rw [← hae]
    simpa using hid

theorem foldKill_kills :
    ∀ (ids : List Nat) (pr : List (Nat × BCProcessState))
      (e : Nat × BCProcessState),
      e ∈ ids.foldl (fun acc id => BCProcessPool.procsKill id acc) pr →
      e.2.hasProcess = false ∨ (e ∈ pr ∧ e.1 ∉ ids) := by
  intro ids
  induction ids with
  | nil => intro pr e h; exact Or.inr ⟨h, by simp⟩
  | cons id rest ih =>
    intro pr e h
    rw [List.foldl_cons] at h
    rcases ih (BCProcessPool.procsKill id pr) e h with hk | ⟨hmem, hnot⟩
    · exact Or.inl hk
    · rcases mem_procsKill id pr e hmem with hk | ⟨hmem2, hne⟩
      · exact Or.inl hk
      · exact Or.inr ⟨hmem2, by simp [hne, hnot]⟩

theorem shutdown_unavailable (s : PoolState)
    (hkeys : ∀ e ∈ s.procs, e.1 ∈ s.processes) (id : Nat) :
    BCProcessPool.poolIsAvailable (BCProcessPool.shutdown s) id = false := by
  rw [BCProcessPool.poolIsAvailable, BCProcessPool.procsAvailable,
    BCProcessPool.lookupProc]
  cases hf : (BCProcessPool.shutdown s).procs.find? (fun e => e.1 == id) with
  | none => rfl
  | some e =>
    have hmem : e ∈ (BCProcessPool.shutdown s).procs :=
      List.mem_of_find?_eq_some hf
    rw [BCProcessPool.shutdown] at hmem
    simp only at hmem
    rcases foldKill_kills s.processes s.procs e hmem with hk | ⟨hmem2, hnot⟩
    · simp [BCProcess.isAvailable, hk]
    · exact absurd (hkeys e hmem2) hnot


theorem runTasks_noop (spawnOk act : Nat → Bool) :
    ∀ (n i : Nat) (s : PoolState),
      (∀ j, j < n → (spawnOk (i + j) && act (i + j)) = false) →
      BCProcessPool.runTasks spawnOk act i n s = s := by
  intro n
  induction n with
  | zero => intro i s _; rfl
  | succ n ih =>
    intro i s hall
    have h0 : (spawnOk i && act i) = false := by
      have := hall 0 (by omega)
      simpa using this
    rw [BCProcessPool.runTasks, if_neg (by simp [h0])]
    refine ih (i + 1) s ?_
    intro j hj
    have := hall (j + 1) (by omega)
    have harith : i + (j + 1) = i + 1 + j := by omega
    rwa [harith] at this

theorem runTasks_flags (spawnOk act : Nat → Bool) :
    ∀ (n i : Nat) (s : PoolState),
      (BCProcessPool.runTasks spawnOk act i n s).isInitialized =
        s.isInitialized := by
  intro n
  induction n with
  | zero => intro i s; rfl
  | succ n ih =>
    intro i s
    rw [BCProcessPool.runTasks]
    by_cases h0 : (spawnOk i && act i) = true
    · rw [if_pos h0, ih (i + 1) (BCProcessPool.createOk s).2]
      rfl
    · rw [if_neg h0]
      exact ih (i + 1) s

theorem runTasks_length (spawnOk act : Nat → Bool) :
    ∀ (n i : Nat) (s : PoolState),
      (∀ j, j < n → (spawnOk (i + j) && act (i + j)) = true) →
      (BCProcessPool.runTasks spawnOk act i n s).processes.length =
        s.processes.length + n ∧
      (BCProcessPool.runTasks spawnOk act i n s).availableProcesses.length =
        s.availableProcesses.length + n := by
  intro n
  induction n with
  | zero => intro i s _; simp [BCProcessPool.runTasks]
  | succ n ih =>
    intro i s hall
    have h0 : (spawnOk i && act i) = true := by
      have := hall 0 (by omega)
      simpa using this
    rw [BCProcessPool.runTasks, if_pos h0]
    have htail : ∀ j, j < n → (spawnOk (i + 1 + j) && act (i + 1 + j)) = true := by
      intro j hj
      have := hall (j + 1) (by omega)
      have harith : i + (j + 1) = i + 1 + j := by omega
      rwa [harith] at this
    obtain ⟨h1, h2⟩ := ih (i + 1) (BCProcessPool.createOk s).2 htail
    constructor
    · rw [h1]
      simp [BCProcessPool.createOk]
      omega
    · rw [h2]
      simp [BCProcessPool.createOk]
      omega

theorem runTasks_procs (spawnOk act : Nat → Bool) :
    ∀ (n i : Nat) (s : PoolState) (e : Nat × BCProcessState),
      e ∈ (BCProcessPool.runTasks spawnOk act i n s).procs →
      e ∈ s.procs ∨ e.2 = BCProcessPool.startedState s.config := by
  intro n
  induction n with
  | zero => intro i s e h; exact Or.inl (by simpa [BCProcessPool.runTasks] using h)
  | succ n ih =>
    intro i s e h
    rw [BCProcessPool.runTasks] at h
    by_cases h0 : (spawnOk i && act i) = true
    · rw [if_pos h0] at h
      rcases ih (i + 1) (BCProcessPool.createOk s).2 e h with hmem | hst
      · simp only [BCProcessPool.createOk, List.mem_cons] at hmem
        rcases hmem with heq | hmem
        · exact Or.inr (by rw [heq])
        · exact Or.inl hmem
      · exact Or.inr hst
    · rw [if_neg h0] at h
      exact ih (i + 1) s e h

theorem runTasks_keys (spawnOk act : Nat → Bool) :
    ∀ (n i : Nat) (s : PoolState),
      (∀ e ∈ s.procs, e.1 ∈ s.processes) →
      ∀ e ∈ (BCProcessPool.runTasks spawnOk act i n s).procs,
        e.1 ∈ (BCProcessPool.runTasks spawnOk act i n s).processes := by
  intro n
  induction n with
  | zero =>
    intro i s hkeys e h
    simp only [BCProcessPool.runTasks] at h ⊢
    exact hkeys e h
  | succ n ih =>
    intro i s hkeys e h
    rw [BCProcessPool.runTasks] at h ⊢
    by_cases h0 : (spawnOk i && act i) = true
    · rw [if_pos h0] at h ⊢
      refine ih (i + 1) (BCProcessPool.createOk s).2 ?_ e h
      intro a ha
      simp only [BCProcessPool.createOk, List.mem_cons] at ha ⊢
      rcases ha with heq | ha
      · rw [heq]; simp
      · simp [hkeys a ha]
    · rw [if_neg h0] at h ⊢
      exact ih (i + 1) s hkeys e h

theorem runTasks_head (spawnOk act : Nat → Bool) :
    ∀ (n i : Nat) (s : PoolState),
      (∃ j, j < n ∧ (spawnOk (i + j) && act (i + j)) = true) →
      ∃ id tl, (BCProcessPool.runTasks spawnOk act i n s).procs =
          (id, BCProcessPool.startedState s.config) :: tl ∧
        id ∈ (BCProcessPool.runTasks spawnOk act i n s).processes := by
  intro n
  induction n with
  | zero => rintro i s ⟨j, hj, -⟩; omega
  | succ n ih =>
    rintro i s ⟨j, hj, hact⟩
    rw [BCProcessPool.runTasks]
    by_cases h0 : (spawnOk i && act i) = true
    · rw [if_pos h0]
      by_cases hrest :
          ∃ j', j' < n ∧ (spawnOk (i + 1 + j') && act (i + 1 + j')) = true
      · exact ih (i + 1) (BCProcessPool.createOk s).2 hrest
      · push_neg at hrest
        have hnoop :
            BCProcessPool.runTasks spawnOk act (i + 1) n
              (BCProcessPool.createOk s).2 = (BCProcessPool.createOk s).2 := by
          refine runTasks_noop spawnOk act n (i + 1) _ ?_
          intro j' hj'
          have := hrest j' hj'
          exact Bool.not_eq_true _ ▸ this
        rw [hnoop]
        exact ⟨s.nextId, s.procs, rfl, by simp [BCProcessPool.createOk]⟩
    · rw [if_neg h0]
      have hj0 : j ≠ 0 := by
        rintro rfl
        rw [Nat.add_zero] at hact
        exact h0 hact
      obtain ⟨j', rfl⟩ : ∃ j', j = j' + 1 := ⟨j - 1, by omega⟩
      have harith : i + (j' + 1) = i + 1 + j' := by omega
      rw [harith] at hact
      exact ih (i + 1) s ⟨j', by omega, hact⟩

/-- C8 counterexample: pool size 2 where task 0 fails to spawn and task
1's `start()` settles only after the catch ran `shutdown()`.  The failed
`initialize()` throws the spawn error, yet the late-settling
`createProcess` pushes worker 0 afterwards: the pool retains a live,
available member process after the failed initialization, so a partial
pool *is* left running. -/
theorem c8_counterexample :
    (BCProcessPool.initPool (fun i => i != 0) (fun i => i == 0)
        (BCProcessPool.mkPool
          { poolSize := 2, defaultPrecision := 20,
            defaultTimeout := 30000 })).2 =
      Except.error
        { message := ("Failed to initialize BC process pool").toList,
          code := BCErrorCode.BC_SPAWN_ERROR } ∧
    (BCProcessPool.initPool (fun i => i != 0) (fun i => i == 0)
        (BCProcessPool.mkPool
          { poolSize := 2, defaultPrecision := 20,
            defaultTimeout := 30000 })).1.processes = [0] ∧
    BCProcessPool.poolIsAvailable
      (BCProcessPool.initPool (fun i => i != 0) (fun i => i == 0)
        (BCProcessPool.mkPool
          { poolSize := 2, defaultPrecision := 20,
            defaultTimeout := 30000 })).1 0 = true ∧
    (BCProcessPool.initPool (fun i => i != 0) (fun i => i == 0)
        (BCProcessPool.mkPool
          { poolSize := 2, defaultPrecision := 20,
            defaultTimeout := 30000 })).1.isInitialized = false := by decide

/-- C8 (amended): `initialize()` on a fresh pool fans out exactly
`poolSize` concurrent worker starts and succeeds only when all of them
reach Ready — then the pool is initialized with `poolSize` member (and
available) workers, all started and available.  If any spawn fails,
initialization fails as a whole with a spawn error and the pool is left
uninitialized; the catch-block `shutdown()` tears down exactly the
workers whose `start()` settled before it ran: when every start settles
before the shutdown, no partial pool is left (members and available
empty, every worker killed), but a worker whose start settles only after
the shutdown pushes itself into the already-cleared pool, so a live,
available member process remains after the failed initialization. -/
theorem c8_initPool_fanout (cfg : ProcessPoolConfig)
    (spawnOk early : Nat → Bool) :
    ((∀ i < cfg.poolSize, spawnOk i = true) →
      (BCProcessPool.initPool spawnOk early (BCProcessPool.mkPool cfg)).2 =
        Except.ok () ∧
      (BCProcessPool.initPool spawnOk early
        (BCProcessPool.mkPool cfg)).1.isInitialized = true ∧
      (BCProcessPool.initPool spawnOk early
        (BCProcessPool.mkPool cfg)).1.processes.length = cfg.poolSize ∧
      (BCProcessPool.initPool spawnOk early
        (BCProcessPool.mkPool cfg)).1.availableProcesses.length =
        cfg.poolSize ∧
      (∀ e ∈ (BCProcessPool.initPool spawnOk early
          (BCProcessPool.mkPool cfg)).1.procs,
        BCProcess.isAvailable e.2 = true)) ∧
    ((∃ i, i < cfg.poolSize ∧ spawnOk i = false) →
      (∃ err, (BCProcessPool.initPool spawnOk early
          (BCProcessPool.mkPool cfg)).2 = Except.error err ∧
        err.code = BCErrorCode.BC_SPAWN_ERROR) ∧
      (BCProcessPool.initPool spawnOk early
        (BCProcessPool.mkPool cfg)).1.isInitialized = false ∧
      ((∀ i < cfg.poolSize, early i = true) →
        (BCProcessPool.initPool spawnOk early
          (BCProcessPool.mkPool cfg)).1.processes = [] ∧
        (BCProcessPool.initPool spawnOk early
          (BCProcessPool.mkPool cfg)).1.availableProcesses = [] ∧
        (∀ id, BCProcessPool.poolIsAvailable
          (BCProcessPool.initPool spawnOk early
            (BCProcessPool.mkPool cfg)).1 id = false)) ∧
      ((∃ i, i < cfg.poolSize ∧ spawnOk i = true ∧ early i = false) →
        ∃ id, id ∈ (BCProcessPool.initPool spawnOk early
            (BCProcessPool.mkPool cfg)).1.processes ∧
          BCProcessPool.poolIsAvailable
            (BCProcessPool.initPool spawnOk early
              (BCProcessPool.mkPool cfg)).1 id = true)) := by
  have hps : (BCProcessPool.mkPool cfg).config.poolSize = cfg.poolSize := rfl
  constructor
  · intro hall
    rw [BCProcessPool.initPool]
    rw [if_neg (by rw [BCProcessPool.mkPool]; simp)]
    rw [hps]
    rw [if_neg (by
      simp only [List.any_eq_true, List.mem_range, not_exists, not_and]
      intro i hi
      simp [hall i hi])]
    obtain ⟨hlen1, hlen2⟩ := runTasks_length spawnOk (fun _ => true)
      cfg.poolSize 0 (BCProcessPool.mkPool cfg)
      (by intro j hj; simp [hall j (by omega)])
    refine ⟨rfl, rfl, by simpa [BCProcessPool.mkPool] using hlen1,
      by simpa [BCProcessPool.mkPool] using hlen2, ?_⟩
    intro e he
    rcases runTasks_procs spawnOk (fun _ => true) cfg.poolSize 0
        (BCProcessPool.mkPool cfg) e he with hmem | hst
    · simp [BCProcessPool.mkPool] at hmem
    · rw [hst]
      simp [BCProcessPool.startedState, BCProcess.isAvailable]
  · intro hex
    rw [BCProcessPool.initPool]
    rw [if_neg (by rw [BCProcessPool.mkPool]; simp)]
    rw [hps]
    rw [if_pos (by
      obtain ⟨i, hi, hfail⟩ := hex
      simp only [List.any_eq_true, List.mem_range]
      exact ⟨i, hi, by simp [hfail]⟩)]
    refine ⟨⟨_, rfl, rfl⟩, by rw [runTasks_flags]; rfl, ?_, ?_⟩
    · intro hearly
      have hnoop : BCProcessPool.runTasks spawnOk (fun i => !early i) 0
          cfg.poolSize
          (BCProcessPool.shutdown (BCProcessPool.runTasks spawnOk early 0
            cfg.poolSize (BCProcessPool.mkPool cfg))) =
          BCProcessPool.shutdown (BCProcessPool.runTasks spawnOk early 0
            cfg.poolSize (BCProcessPool.mkPool cfg)) := by
        refine runTasks_noop spawnOk (fun i => !early i) cfg.poolSize 0 _ ?_
        intro j hj
        simp [hearly j hj]
      rw [hnoop]
      refine ⟨rfl, rfl, fun id => shutdown_unavailable _ ?_ id⟩
      refine runTasks_keys spawnOk early cfg.poolSize 0
        (BCProcessPool.mkPool cfg) ?_
      intro e he
      simp [BCProcessPool.mkPool] at he
    · rintro ⟨i, hi, hok, hlate⟩
      obtain ⟨id, tl, hp, hm⟩ := runTasks_head spawnOk (fun i => !early i)
        cfg.poolSize 0
        (BCProcessPool.shutdown (BCProcessPool.runTasks spawnOk early 0
          cfg.poolSize (BCProcessPool.mkPool cfg)))
        ⟨i, hi, by simp [hok, hlate]⟩
      refine ⟨id, hm, ?_⟩
      rw [BCProcessPool.poolIsAvailable, BCProcessPool.procsAvailable,
        BCProcessPool.lookupProc, hp]
      simp [BCProcessPool.startedState, BCProcess.isAvailable]

/-- Witness for C8 (amended) at a two-worker configuration: all spawns
succeeding yields success, and a failing spawn with every start settling
before the shutdown leaves no member processes. -/
theorem c8_witness :
    (BCProcessPool.initPool (fun _ => true) (fun _ => true)
      (BCProcessPool.mkPool
        { poolSize := 2, defaultPrecision := 20,
          defaultTimeout := 30000 })).2 = Except.ok () ∧
    (BCProcessPool.initPool (fun i => i != 0) (fun _ => true)
      (BCProcessPool.mkPool
        { poolSize := 2, defaultPrecision := 20,
          defaultTimeout := 30000 })).1.processes = [] :=
  ⟨((c8_initPool_fanout
      { poolSize := 2, defaultPrecision := 20, defaultTimeout := 30000 }
      (fun _ => true) (fun _ => true)).1 (by intro i _; rfl)).1,
   (((c8_initPool_fanout
      { poolSize := 2, defaultPrecision := 20, defaultTimeout := 30000 }
      (fun i => i != 0) (fun _ => true)).2
      ⟨0, by norm_num, rfl⟩).2.2.1 (by intro i _; rfl)).1⟩
